import Mathlib

/-!
Memory Visualizer (`memo_man.cpp`): the interaction state machine.

A shallow embedding of the logical state of `struct Block` and `class MemoryUI`
and of the event handlers `handleMouseClick`, `handleMouseMove`,
`handleTextInput`, `applyAction`, `updateSummaryText` and `update`.

Conventions of the embedding.

* Only the logical fields are kept.  Shapes, colours, glow values, fonts and
  positions are rendering data; no handler reads them except through the
  `getGlobalBounds().contains(mousePos)` tests, see `MousePos`.
* C++ `int` is `Int`; every value that occurs stays far inside the 32-bit range
  (sizes are at most 100, there are 100 blocks), except inside `stoi`, where the
  range check of the library is modelled explicitly.
* A handler that can throw or index out of bounds returns `Option`; `none` means
  that the C++ program has no next state (uncaught exception, undefined
  behaviour).  `update_total` shows that this never happens in a reachable state.
-/

namespace MemoryManager

/-! ## Data model -/

/-- Logical fields of `struct Block` (lines 12-24). -/
structure Block where
  id : Int
  allocated : Bool
  freed : Bool
  memorySize : Int
deriving DecidableEq

/-- A pointer position, as far as the handlers look at it: the outcome of each
`getGlobalBounds().contains(mousePos)` test of `handleMouseClick` and
`handleMouseMove` (the three buttons, and block number `i` for every `i`).
No geometric constraint is imposed, so overlapping hit regions are covered. -/
structure MousePos where
  onAllocate : Bool
  onFree : Bool
  onClear : Bool
  onBlock : Nat → Bool

/-- Logical fields of `class MemoryUI` (lines 75-96).  `statusText` and
`summaryText` hold the string last given to `setString`. -/
structure MemoryUI where
  blocks : List Block
  selectedAction : Int
  userInputSize : List Char
  showInputBox : Bool
  selectedBlock : Int
  statusText : String
  summaryText : String
  buttonHover : List Bool

/-- The values `sf::Event` can take, as far as `update` distinguishes them.
`TextEntered` carries `event.text.unicode`. -/
inductive Event where
  | MouseButtonPressed (mousePos : MousePos)
  | MouseMoved (mousePos : MousePos)
  | TextEntered (unicode : Nat)
  | Other

/-! ## The summary pass (`updateSummaryText`, lines 246-285) -/

/-- The local variables of `updateSummaryText` (lines 247-249). -/
structure Summary where
  allocatedCount : Int
  freedCount : Int
  totalSize : Int
  maxSize : Int
  minSize : Int
  sizeHistogram : List Int

/-- The initial values of the locals: counters 0, `maxSize = 0`, `minSize = 100`,
ten empty buckets. -/
def Summary.start : Summary :=
  { allocatedCount := 0, freedCount := 0, totalSize := 0,
    maxSize := 0, minSize := 100, sizeHistogram := List.replicate 10 0 }

/-- Lines 258-259: `bin = (memorySize - 10) / 10; bin = max(0, min(9, bin))`
(C++ division truncates towards zero). -/
def histogramBin (memorySize : Int) : Int :=
  max 0 (min 9 ((memorySize - 10).tdiv 10))

/-- Line 260: `sizeHistogram[bin]++`. -/
def bump : List Int → Nat → List Int
  | [], _ => []
  | x :: xs, 0 => (x + 1) :: xs
  | x :: xs, k + 1 => x :: bump xs k

/-- One iteration of the loop at lines 251-264. -/
def summaryStep (acc : Summary) (b : Block) : Summary :=
  if b.allocated then
    { acc with
      allocatedCount := acc.allocatedCount + 1
      totalSize := acc.totalSize + b.memorySize
      maxSize := max acc.maxSize b.memorySize
      minSize := min acc.minSize b.memorySize
      sizeHistogram := bump acc.sizeHistogram (histogramBin b.memorySize).toNat }
  else if b.freed then
    { acc with freedCount := acc.freedCount + 1 }
  else acc

/-- The loop at lines 251-264 over all blocks. -/
def summaryPass (blocks : List Block) : Summary :=
  blocks.foldl summaryStep Summary.start

/-- Lines 278-282: one histogram line per bucket. -/
def histogramLine (s : Summary) (i : Nat) : String :=
  toString (10 + i * 10) ++ "-" ++ toString (10 + i * 10 + 9) ++ " KB: " ++
    String.mk (List.replicate (s.sizeHistogram.getD i 0).toNat '|') ++ "\n"

/-- Lines 266-282: the text written to the stream. -/
@[irreducible] def summaryString (count : Nat) (s : Summary) : String :=
  "SYSTEM STATUS\n\n" ++
  "Total Blocks: " ++ toString count ++ "\n" ++
  "Allocated: " ++ toString s.allocatedCount ++ "\n" ++
  "Freed: " ++ toString s.freedCount ++ "\n" ++
  "Available: " ++ toString ((count : Int) - s.allocatedCount) ++ "\n" ++
  "Total Memory: " ++ toString s.totalSize ++ " KB\n" ++
  "Max Block: " ++ (if s.allocatedCount ≠ 0 then toString s.maxSize else "N/A") ++ " KB\n" ++
  "Min Block: " ++ (if s.allocatedCount ≠ 0 then toString s.minSize else "N/A") ++ " KB\n" ++
  "Avg Block: " ++
    (if s.allocatedCount ≠ 0 then toString (s.totalSize.tdiv s.allocatedCount) else "N/A") ++
    " KB\n\n" ++
  "MEMORY DISTRIBUTION\n" ++
  (List.range 10).foldl (fun acc i => acc ++ histogramLine s i) ""

/-- `MemoryUI::updateSummaryText` (lines 246-285). -/
def updateSummaryText (ui : MemoryUI) : MemoryUI :=
  { ui with summaryText := summaryString ui.blocks.length (summaryPass ui.blocks) }

/-! ## `std::stoi` -/

/-- The characters `isspace` accepts in the C locale. -/
def isSpace (c : Char) : Bool :=
  c = ' ' || c = '\t' || c = '\n' || c = '\r' || c.toNat = 11 || c.toNat = 12

/-- Horner evaluation of a run of decimal digits, most significant first. -/
def accumulate (ds : List Char) : Nat :=
  ds.foldl (fun acc c => 10 * acc + (c.toNat - 48)) 0

/-- The sign of a numeral and the rest of the text after it. -/
def splitSign : List Char → Bool × List Char
  | '-' :: r => (true, r)
  | '+' :: r => (false, r)
  | s => (false, s)

/-- The library function `std::stoi(str)` with base 10: leading white space is
skipped, an optional sign is read, then the longest run of digits.  `none`
stands for the exceptions `std::invalid_argument` (no digit) and
`std::out_of_range` (value outside the range of `int`). -/
def stoi (str : List Char) : Option Int :=
  let signed := splitSign (str.dropWhile isSpace)
  let ds := signed.2.takeWhile Char.isDigit
  if ds = [] then none
  else
    let v : Int := if signed.1 then -(accumulate ds : Int) else (accumulate ds : Int)
    if v < -2147483648 ∨ 2147483647 < v then none else some v

/-! ## Event handlers -/

/-- Lines 381-383: the three assignments to `blocks[selectedBlock]`. -/
def Block.allocate (b : Block) (size : Int) : Block :=
  { b with allocated := true, freed := false, memorySize := size }

/-- Lines 325-326: the two assignments to `blocks[i]`. -/
def Block.release (b : Block) : Block :=
  { b with allocated := false, freed := true }

/-- Lines 306-308: the three assignments to every block. -/
def Block.clear (b : Block) : Block :=
  { b with allocated := false, freed := false, memorySize := 0 }

/-- `MemoryUI::applyAction` (lines 367-393). -/
def applyAction (ui : MemoryUI) : Option MemoryUI :=
  if ui.selectedBlock = -1 ∨ ui.userInputSize = [] then some ui
  else
    match stoi ui.userInputSize with
    | none => none
    | some size =>
      if size < 10 ∨ size > 100 then
        some { ui with statusText := "Size must be 10-100 KB" }
      else if ui.selectedBlock < 0 then none
      else
        match ui.blocks[ui.selectedBlock.toNat]? with
        | none => none
        | some b =>
          if b.allocated then
            some { ui with statusText := "Block already allocated" }
          else
            some (updateSummaryText
              { ui with
                blocks := ui.blocks.set ui.selectedBlock.toNat (b.allocate size)
                statusText := "Allocated block " ++ toString (ui.selectedBlock + 1) ++
                              " (" ++ toString size ++ " KB)"
                selectedAction := 0
                showInputBox := false
                selectedBlock := -1
                userInputSize := [] })

/-- The body of the loop at lines 317-333, entered when block `i` contains the
pointer. -/
def clickBlock (ui : MemoryUI) (i : Nat) (b : Block) : MemoryUI :=
  let ui1 := { ui with selectedBlock := (i : Int) }
  if ui1.selectedAction = 1 ∧ b.allocated = false then
    { ui1 with
      showInputBox := true
      statusText := "Enter size for block " ++ toString (i + 1) }
  else if ui1.selectedAction = 2 ∧ b.allocated = true then
    updateSummaryText
      { ui1 with
        blocks := ui1.blocks.set i b.release
        statusText := "Freed block " ++ toString (i + 1)
        selectedAction := 0
        selectedBlock := -1 }
  else ui1

/-- The loop at lines 316-334: `rest` are the blocks `blocks[i], blocks[i+1], ...`
still to be tested; the first one that contains the pointer is handled and the
loop is left (`break`). -/
def clickLoop (ui : MemoryUI) (mousePos : MousePos) : List Block → Nat → MemoryUI
  | [], _ => ui
  | b :: rest, i =>
    if mousePos.onBlock i then clickBlock ui i b
    else clickLoop ui mousePos rest (i + 1)

/-- `MemoryUI::handleMouseClick` (lines 287-335). -/
def handleMouseClick (ui : MemoryUI) (mousePos : MousePos) : MemoryUI :=
  if mousePos.onAllocate then
    { ui with
      selectedAction := 1
      userInputSize := []
      showInputBox := true
      statusText := "Select a block to allocate" }
  else if mousePos.onFree then
    { ui with
      selectedAction := 2
      showInputBox := false
      statusText := "Select a block to free" }
  else if mousePos.onClear then
    updateSummaryText
      { ui with
        blocks := ui.blocks.map Block.clear
        selectedBlock := -1
        statusText := "All blocks cleared" }
  else clickLoop ui mousePos ui.blocks 0

/-- `MemoryUI::handleMouseMove` (lines 349-353). -/
def handleMouseMove (ui : MemoryUI) (mousePos : MousePos) : MemoryUI :=
  { ui with
    buttonHover :=
      ((ui.buttonHover.set 0 mousePos.onAllocate).set 1 mousePos.onFree).set 2 mousePos.onClear }

/-- `isdigit(e.text.unicode)`: the code points of `0` to `9`.  (Above 255 the
argument is outside the domain of the C function; the answer is taken to be
false there.) -/
def isdigit (unicode : Nat) : Bool :=
  decide (48 ≤ unicode) && decide (unicode ≤ 57)

/-- `MemoryUI::handleTextInput` (lines 355-365); 8 is the backspace character
and 13 the carriage return. -/
def handleTextInput (ui : MemoryUI) (unicode : Nat) : Option MemoryUI :=
  if unicode = 8 then
    if ui.userInputSize ≠ [] then some { ui with userInputSize := ui.userInputSize.dropLast }
    else some ui
  else if unicode = 13 then applyAction ui
  else if isdigit unicode then
    if ui.userInputSize.length < 3 then
      some { ui with userInputSize := ui.userInputSize ++ [Char.ofNat unicode] }
    else some ui
  else some ui

/-- `MemoryUI::update` (lines 491-503). -/
def update (ui : MemoryUI) : Event → Option MemoryUI
  | Event.MouseButtonPressed mousePos => some (handleMouseClick ui mousePos)
  | Event.MouseMoved mousePos => some (handleMouseMove ui mousePos)
  | Event.TextEntered unicode =>
    if ui.showInputBox then handleTextInput ui unicode else some ui
  | Event.Other => some ui

/-- The constructor `MemoryUI::MemoryUI` (lines 105-119) with the member
initialisers of lines 85-88: blocks with ids 1 to 100, nothing armed, nothing
selected, empty buffer, hidden input box; `setupUI` calls `updateSummaryText`. -/
def initial : MemoryUI :=
  updateSummaryText
    { blocks := (List.range 100).map
        (fun (i : Nat) => { id := (i : Int) + 1, allocated := false, freed := false, memorySize := 0 })
      selectedAction := 0
      userInputSize := []
      showInputBox := false
      selectedBlock := -1
      statusText := ""
      summaryText := ""
      buttonHover := [false, false, false] }

/-- The events of a list handled in order, as the loop of `main` (lines 514-519)
does; `none` as soon as one of them has no next state. -/
def run (ui : MemoryUI) : List Event → Option MemoryUI
  | [] => some ui
  | e :: es =>
    match update ui e with
    | none => none
    | some ui1 => run ui1 es

/-- The states the program can be in: the initial state and every state that
`update` produces from a reachable one. -/
inductive Reachable : MemoryUI → Prop where
  | start : Reachable initial
  | step (ui ui1 : MemoryUI) (e : Event) :
      Reachable ui → update ui e = some ui1 → Reachable ui1

/-- The pointer is inside block `i` and nothing else. -/
def MousePos.block (i : Nat) : MousePos :=
  { onAllocate := false, onFree := false, onClear := false, onBlock := fun j => j = i }

/-- The pointer is inside the Allocate button only. -/
def MousePos.allocateButton : MousePos :=
  { onAllocate := true, onFree := false, onClear := false, onBlock := fun _ => false }

/-- The pointer is inside the Free button only. -/
def MousePos.freeButton : MousePos :=
  { onAllocate := false, onFree := true, onClear := false, onBlock := fun _ => false }

/-- The pointer is inside the Clear All button only. -/
def MousePos.clearButton : MousePos :=
  { onAllocate := false, onFree := false, onClear := true, onBlock := fun _ => false }

/-! ## Sample event sequences -/

/-- Click Allocate, click block 1, type 5 and 5: the program waits for the
confirm key with the buffer "55". -/
def entryEvents : List Event :=
  [Event.MouseButtonPressed MousePos.allocateButton,
   Event.MouseButtonPressed (MousePos.block 0),
   Event.TextEntered 53, Event.TextEntered 53]

/-- The state after `entryEvents`. -/
def sizeEntry55 : MemoryUI := (run initial entryEvents).getD initial

/-- The state after `entryEvents` and the confirm key: block 1 holds 55 KB. -/
def allocatedOnce : MemoryUI :=
  (run initial (entryEvents ++ [Event.TextEntered 13])).getD initial

/-- The state after block 1 was allocated with 55 KB and freed again. -/
def freedOnce : MemoryUI :=
  (run initial (entryEvents ++ [Event.TextEntered 13,
    Event.MouseButtonPressed MousePos.freeButton,
    Event.MouseButtonPressed (MousePos.block 0)])).getD initial

/-- The state `sizeEntry55` with the single digit 5 in the buffer instead. -/
def sizeEntry5 : MemoryUI :=
  (run initial [Event.MouseButtonPressed MousePos.allocateButton,
    Event.MouseButtonPressed (MousePos.block 0), Event.TextEntered 53]).getD initial

/-- Block 1 holds 55 KB and Free is armed. -/
def freeArmed : MemoryUI :=
  (run initial (entryEvents ++ [Event.TextEntered 13,
    Event.MouseButtonPressed MousePos.freeButton])).getD initial

/-! ## Notions used to state the properties -/

/-- The number that a string of decimal digits denotes (most significant digit
first), by the positional rule of the library (`Nat.ofDigits`). -/
def decimalValue (ds : List Char) : Nat :=
  Nat.ofDigits 10 (ds.reverse.map (fun c => c.toNat - 48))

/-- The three conditions a block can be in: allocated with a size in [10,100],
freed with the size of its last allocation, or untouched with size 0. -/
def Block.ok (b : Block) : Prop :=
  (b.allocated = true ∧ b.freed = false ∧ 10 ≤ b.memorySize ∧ b.memorySize ≤ 100) ∨
  (b.allocated = false ∧ b.freed = true ∧ 10 ≤ b.memorySize ∧ b.memorySize ≤ 100) ∨
  (b.allocated = false ∧ b.freed = false ∧ b.memorySize = 0)

/-- The invariant of the interaction state machine. -/
structure Inv (ui : MemoryUI) : Prop where
  count : ui.blocks.length = 100
  blocks_ok : ∀ b ∈ ui.blocks, b.ok
  selection : ui.selectedBlock = -1 ∨ (0 ≤ ui.selectedBlock ∧ ui.selectedBlock < ui.blocks.length)
  digits : ∀ c ∈ ui.userInputSize, c.isDigit = true
  short : ui.userInputSize.length ≤ 3
  box : ui.showInputBox = true → ui.selectedAction = 1

/-- What the histogram and the counter have in common at every point of the loop. -/
def histogramAgrees (s : Summary) : Prop :=
  s.sizeHistogram.length = 10 ∧ s.sizeHistogram.sum = s.allocatedCount

/-! ## `stoi` on digit strings -/

theorem digit_cases (c : Char) (h : c.isDigit = true) :
    c ∈ ['0', '1', '2', '3', '4', '5', '6', '7', '8', '9'] := by
  have h1 : 48 ≤ c.toNat ∧ c.toNat ≤ 57 := by
    simp [Char.isDigit] at h
    exact ⟨h.1, h.2⟩
  have h2 : c = Char.ofNat c.toNat := (Char.ofNat_toNat c).symm
  obtain ⟨lo, hi⟩ := h1
  generalize c.toNat = n at *
  subst h2
  interval_cases n <;> decide

theorem isSpace_digit (c : Char) (h : c.isDigit = true) : isSpace c = false := by
  have := digit_cases c h
  simp only [List.mem_cons, List.mem_singleton, List.not_mem_nil, or_false] at this
  rcases this with h | h | h | h | h | h | h | h | h | h <;> subst h <;> decide

theorem splitSign_digit (c : Char) (cs : List Char) (h : c.isDigit = true) :
    splitSign (c :: cs) = (false, c :: cs) := by
  have := digit_cases c h
  simp only [List.mem_cons, List.mem_singleton, List.not_mem_nil, or_false] at this
  rcases this with h | h | h | h | h | h | h | h | h | h <;> subst h <;> rfl

theorem digit_val_lt (c : Char) (h : c.isDigit = true) : c.toNat - 48 < 10 := by
  have := digit_cases c h
  simp only [List.mem_cons, List.mem_singleton, List.not_mem_nil, or_false] at this
  rcases this with h | h | h | h | h | h | h | h | h | h <;> subst h <;> decide

theorem foldl_horner (ds : List Char) (a : Nat) :
    ds.foldl (fun acc c => 10 * acc + (c.toNat - 48)) a
      = a * 10 ^ ds.length + decimalValue ds := by
  induction ds generalizing a with
  | nil => simp [decimalValue]
  | cons d ds ih =>
    rw [List.foldl_cons, ih]
    simp only [decimalValue, List.reverse_cons, List.map_append, List.map_cons, List.map_nil,
      Nat.ofDigits_append, Nat.ofDigits_singleton, List.length_map, List.length_reverse,
      List.length_cons]
    ring

theorem accumulate_eq (ds : List Char) : accumulate ds = decimalValue ds := by
  simp [accumulate, foldl_horner]

theorem decimalValue_lt (ds : List Char) (h : ∀ c ∈ ds, c.isDigit = true) :
    decimalValue ds < 10 ^ ds.length := by
  have := @Nat.ofDigits_lt_base_pow_length 10 (ds.reverse.map (fun c => c.toNat - 48))
    (by norm_num) (by
      intro x hx
      simp only [List.mem_map, List.mem_reverse] at hx
      obtain ⟨c, hc, rfl⟩ := hx
      exact digit_val_lt c (h c hc))
  simpa [decimalValue] using this

theorem stoi_digits (ds : List Char) (hne : ds ≠ []) (h : ∀ c ∈ ds, c.isDigit = true)
    (hfit : decimalValue ds ≤ 2147483647) : stoi ds = some (decimalValue ds : Int) := by
  obtain ⟨c, cs, rfl⟩ := List.exists_cons_of_ne_nil hne
  have hc : c.isDigit = true := h c (List.mem_cons_self _ _)
  have h1 : (c :: cs).dropWhile isSpace = c :: cs := by
    simp [List.dropWhile_cons, isSpace_digit c hc]
  have h2 : (c :: cs).takeWhile Char.isDigit = c :: cs :=
    List.takeWhile_eq_self_iff.mpr h
  simp only [stoi, h1, splitSign_digit c cs hc, h2, accumulate_eq]
  simp
  omega

/-! ## The summary pass -/

theorem bump_length (h : List Int) (k : Nat) : (bump h k).length = h.length := by
  induction h generalizing k with
  | nil => rfl
  | cons x xs ih => cases k <;> simp [bump, ih]

theorem bump_sum (h : List Int) (k : Nat) (hk : k < h.length) :
    (bump h k).sum = h.sum + 1 := by
  induction h generalizing k with
  | nil => simp at hk
  | cons x xs ih =>
    cases k with
    | zero => simp [bump]; ring
    | succ k =>
      have := ih k (by simpa using hk)
      simp [bump, this]; ring

theorem histogramBin_range (n : Int) : (histogramBin n).toNat < 10 := by
  unfold histogramBin
  omega

theorem summaryStep_histogram (acc : Summary) (b : Block) (h : histogramAgrees acc) :
    histogramAgrees (summaryStep acc b) := by
  obtain ⟨hl, hs⟩ := h
  unfold summaryStep
  split
  · refine ⟨by simp [bump_length, hl], ?_⟩
    simp only
    rw [bump_sum _ _ (by rw [hl]; exact histogramBin_range _), hs]
  · split
    · exact ⟨hl, hs⟩
    · exact ⟨hl, hs⟩

theorem foldl_histogram (bs : List Block) (acc : Summary) (h : histogramAgrees acc) :
    histogramAgrees (bs.foldl summaryStep acc) := by
  induction bs generalizing acc with
  | nil => exact h
  | cons b bs ih => exact ih _ (summaryStep_histogram acc b h)

theorem foldl_allocatedCount (bs : List Block) (acc : Summary) :
    (bs.foldl summaryStep acc).allocatedCount
      = acc.allocatedCount + ((bs.filter (fun b => b.allocated)).length : Int) := by
  induction bs generalizing acc with
  | nil => simp
  | cons b bs ih =>
    rw [List.foldl_cons, ih]
    unfold summaryStep
    cases hb : b.allocated <;> cases hf : b.freed <;> simp [hb, hf, List.filter_cons] <;> ring

theorem foldl_maxSize (bs : List Block) (acc : Summary) :
    ((bs.foldl summaryStep acc).maxSize = acc.maxSize ∨
        ∃ b ∈ bs, b.allocated = true ∧ b.memorySize = (bs.foldl summaryStep acc).maxSize) ∧
      acc.maxSize ≤ (bs.foldl summaryStep acc).maxSize ∧
      ∀ b ∈ bs, b.allocated = true → b.memorySize ≤ (bs.foldl summaryStep acc).maxSize := by
  induction bs generalizing acc with
  | nil => simp
  | cons b bs ih =>
    rw [List.foldl_cons]
    obtain ⟨h1, h2, h3⟩ := ih (summaryStep acc b)
    have hstep : (summaryStep acc b).maxSize
        = if b.allocated = true then max acc.maxSize b.memorySize else acc.maxSize := by
      unfold summaryStep
      cases hb : b.allocated <;> cases hf : b.freed <;> simp [hb, hf]
    refine ⟨?_, ?_, ?_⟩
    · rcases h1 with h1 | ⟨c, hc, hca, hcs⟩
      · rw [h1, hstep]
        by_cases hb : b.allocated = true
        · simp only [hb, if_true]
          rcases le_total acc.maxSize b.memorySize with hle | hle
          · right; exact ⟨b, List.mem_cons_self _ _, hb, by rw [max_eq_right hle]⟩
          · left; rw [max_eq_left hle]
        · left; simp [hb]
      · right; exact ⟨c, List.mem_cons_of_mem _ hc, hca, hcs⟩
    · refine le_trans ?_ h2
      rw [hstep]; split
      · exact le_max_left _ _
      · exact le_refl _
    · intro c hc hca
      rcases List.mem_cons.mp hc with rfl | hc
      · refine le_trans ?_ h2
        rw [hstep]; simp [hca]
      · exact h3 c hc hca

theorem foldl_minSize (bs : List Block) (acc : Summary) :
    ((bs.foldl summaryStep acc).minSize = acc.minSize ∨
        ∃ b ∈ bs, b.allocated = true ∧ b.memorySize = (bs.foldl summaryStep acc).minSize) ∧
      (bs.foldl summaryStep acc).minSize ≤ acc.minSize ∧
      ∀ b ∈ bs, b.allocated = true → (bs.foldl summaryStep acc).minSize ≤ b.memorySize := by
  induction bs generalizing acc with
  | nil => simp
  | cons b bs ih =>
    rw [List.foldl_cons]
    obtain ⟨h1, h2, h3⟩ := ih (summaryStep acc b)
    have hstep : (summaryStep acc b).minSize
        = if b.allocated = true then min acc.minSize b.memorySize else acc.minSize := by
      unfold summaryStep
      cases hb : b.allocated <;> cases hf : b.freed <;> simp [hb, hf]
    refine ⟨?_, ?_, ?_⟩
    · rcases h1 with h1 | ⟨c, hc, hca, hcs⟩
      · rw [h1, hstep]
        by_cases hb : b.allocated = true
        · simp only [hb, if_true]
          rcases le_total acc.minSize b.memorySize with hle | hle
          · left; rw [min_eq_left hle]
          · right; exact ⟨b, List.mem_cons_self _ _, hb, by rw [min_eq_right hle]⟩
        · left; simp [hb]
      · right; exact ⟨c, List.mem_cons_of_mem _ hc, hca, hcs⟩
    · refine le_trans h2 ?_
      rw [hstep]; split
      · exact min_le_left _ _
      · exact le_refl _
    · intro c hc hca
      rcases List.mem_cons.mp hc with rfl | hc
      · refine le_trans h2 ?_
        rw [hstep]; simp [hca]
      · exact h3 c hc hca

/-! ## The invariant -/

@[simp] theorem updateSummaryText_blocks (ui : MemoryUI) :
    (updateSummaryText ui).blocks = ui.blocks := rfl
@[simp] theorem updateSummaryText_selectedAction (ui : MemoryUI) :
    (updateSummaryText ui).selectedAction = ui.selectedAction := rfl
@[simp] theorem updateSummaryText_userInputSize (ui : MemoryUI) :
    (updateSummaryText ui).userInputSize = ui.userInputSize := rfl
@[simp] theorem updateSummaryText_showInputBox (ui : MemoryUI) :
    (updateSummaryText ui).showInputBox = ui.showInputBox := rfl
@[simp] theorem updateSummaryText_selectedBlock (ui : MemoryUI) :
    (updateSummaryText ui).selectedBlock = ui.selectedBlock := rfl
@[simp] theorem updateSummaryText_statusText (ui : MemoryUI) :
    (updateSummaryText ui).statusText = ui.statusText := rfl

theorem inv_initial : Inv initial := by
  refine ⟨by simp [initial], ?_, Or.inl rfl, by simp [initial], by simp [initial],
    by simp [initial]⟩
  intro b hb
  simp only [initial, updateSummaryText_blocks, List.mem_map] at hb
  obtain ⟨i, -, rfl⟩ := hb
  exact Or.inr (Or.inr ⟨rfl, rfl, rfl⟩)

/-- The loop either finds no block, or handles the first block under the pointer. -/
theorem clickLoop_cases (ui : MemoryUI) (m : MousePos) (all : List Block) :
    ∀ (rest : List Block) (i : Nat), all.drop i = rest →
      clickLoop ui m rest i = ui ∨
        ∃ j b, all[j]? = some b ∧ clickLoop ui m rest i = clickBlock ui j b := by
  intro rest
  induction rest with
  | nil => intro i _; exact Or.inl rfl
  | cons b rest ih =>
    intro i h
    unfold clickLoop
    split
    · right
      refine ⟨i, b, ?_, rfl⟩
      have := congrArg (fun l => l[0]?) h
      simpa using this
    · apply ih (i + 1)
      have := congrArg List.tail h
      simpa using this

/-- A pointer inside block `i` and inside no earlier block makes the loop handle block `i`. -/
theorem clickLoop_hit (ui : MemoryUI) (m : MousePos) (i : Nat) (b : Block)
    (hhit : m.onBlock i = true) (hfirst : ∀ k, k < i → m.onBlock k = false) :
    ∀ (rest : List Block) (i0 : Nat), i0 ≤ i → rest[i - i0]? = some b →
      clickLoop ui m rest i0 = clickBlock ui i b := by
  intro rest
  induction rest with
  | nil => intro i0 _ h; simp at h
  | cons c rest ih =>
    intro i0 hle h
    unfold clickLoop
    rcases Nat.eq_or_lt_of_le hle with heq | hlt
    · subst heq
      simp at h
      simp [hhit, h]
    · rw [if_neg (by simp [hfirst i0 hlt])]
      apply ih (i0 + 1) hlt
      have : i - i0 = (i - (i0 + 1)) + 1 := by omega
      rw [this] at h
      simpa using h

theorem release_ok (b : Block) (h : b.ok) (ha : b.allocated = true) : b.release.ok := by
  rcases h with ⟨_, _, h1, h2⟩ | ⟨h0, _⟩ | ⟨h0, _⟩
  · exact Or.inr (Or.inl ⟨rfl, rfl, h1, h2⟩)
  · simp [h0] at ha
  · simp [h0] at ha

theorem inv_clickBlock (ui : MemoryUI) (i : Nat) (b : Block) (h : Inv ui)
    (hb : ui.blocks[i]? = some b) : Inv (clickBlock ui i b) := by
  have hi : i < ui.blocks.length := by
    by_contra hc
    rw [List.getElem?_eq_none (by omega)] at hb
    simp at hb
  have hmem : b ∈ ui.blocks := List.getElem?_mem hb
  unfold clickBlock
  simp only
  split
  · rename_i hc
    exact ⟨h.count, h.blocks_ok, Or.inr ⟨by simp, by simpa using hi⟩, h.digits, h.short,
      fun _ => hc.1⟩
  · split
    · rename_i hc
      refine ⟨by simp [h.count], ?_, Or.inl rfl, h.digits, h.short, ?_⟩
      · intro c hcm
        simp only [updateSummaryText_blocks] at hcm
        rcases List.mem_or_eq_of_mem_set hcm with hcm | rfl
        · exact h.blocks_ok c hcm
        · exact release_ok b (h.blocks_ok b hmem) hc.2
      · intro hs
        have := h.box hs
        rw [hc.1] at this
        exact absurd this (by decide)
    · exact ⟨h.count, h.blocks_ok, Or.inr ⟨by simp, by simpa using hi⟩, h.digits, h.short, h.box⟩

theorem inv_handleMouseClick (ui : MemoryUI) (m : MousePos) (h : Inv ui) :
    Inv (handleMouseClick ui m) := by
  unfold handleMouseClick
  split
  · exact ⟨h.count, h.blocks_ok, h.selection, by simp, by simp, fun _ => rfl⟩
  · split
    · exact ⟨h.count, h.blocks_ok, h.selection, h.digits, h.short, by simp⟩
    · split
      · refine ⟨by simp [h.count], ?_, Or.inl rfl, h.digits, h.short, h.box⟩
        intro b hb
        simp only [updateSummaryText_blocks, List.mem_map] at hb
        obtain ⟨c, -, rfl⟩ := hb
        exact Or.inr (Or.inr ⟨rfl, rfl, rfl⟩)
      · rcases clickLoop_cases ui m ui.blocks ui.blocks 0 (by simp) with h1 | ⟨j, b, hb, h1⟩
        · rw [h1]; exact h
        · rw [h1]; exact inv_clickBlock ui j b h hb

theorem inv_handleMouseMove (ui : MemoryUI) (m : MousePos) (h : Inv ui) :
    Inv (handleMouseMove ui m) :=
  ⟨h.count, h.blocks_ok, h.selection, h.digits, h.short, h.box⟩

/-- The four ways `applyAction` can return. -/
theorem applyAction_cases (ui ui1 : MemoryUI) (h : applyAction ui = some ui1) :
    ui1 = ui ∨
    ui1 = { ui with statusText := "Size must be 10-100 KB" } ∨
    ui1 = { ui with statusText := "Block already allocated" } ∨
    ∃ (size : Int) (b : Block), 10 ≤ size ∧ size ≤ 100 ∧ 0 ≤ ui.selectedBlock ∧
      ui.blocks[ui.selectedBlock.toNat]? = some b ∧ b.allocated = false ∧
      ui1 = updateSummaryText
        { ui with
          blocks := ui.blocks.set ui.selectedBlock.toNat (b.allocate size)
          statusText := "Allocated block " ++ toString (ui.selectedBlock + 1) ++
                        " (" ++ toString size ++ " KB)"
          selectedAction := 0
          showInputBox := false
          selectedBlock := -1
          userInputSize := [] } := by
  unfold applyAction at h
  split at h
  · left; exact (Option.some.inj h).symm
  · split at h
    · exact absurd h (by simp)
    · rename_i size hsize
      split at h
      · right; left; exact (Option.some.inj h).symm
      · rename_i hrange
        split at h
        · exact absurd h (by simp)
        · rename_i hneg
          split at h
          · exact absurd h (by simp)
          · rename_i b hb
            split at h
            · right; right; left; exact (Option.some.inj h).symm
            · rename_i hna
              right; right; right
              refine ⟨size, b, by omega, by omega, by omega, hb, by simpa using hna, ?_⟩
              exact (Option.some.inj h).symm

theorem inv_applyAction (ui ui1 : MemoryUI) (h : Inv ui) (hstep : applyAction ui = some ui1) :
    Inv ui1 := by
  rcases applyAction_cases ui ui1 hstep with rfl | rfl | rfl | ⟨size, b, h10, h100, h0, hb, hna, rfl⟩
  · exact h
  · exact ⟨h.count, h.blocks_ok, h.selection, h.digits, h.short, h.box⟩
  · exact ⟨h.count, h.blocks_ok, h.selection, h.digits, h.short, h.box⟩
  · refine ⟨by simp [h.count], ?_, Or.inl rfl, by simp, by simp, by simp⟩
    intro c hc
    simp only [updateSummaryText_blocks] at hc
    rcases List.mem_or_eq_of_mem_set hc with hc | rfl
    · exact h.blocks_ok c hc
    · exact Or.inl ⟨rfl, rfl, h10, h100⟩

theorem applyAction_total (ui : MemoryUI) (h : Inv ui) : ∃ ui1, applyAction ui = some ui1 := by
  unfold applyAction
  split
  · exact ⟨_, rfl⟩
  · rename_i hc
    have hne : ui.userInputSize ≠ [] := fun e => hc (Or.inr e)
    have hsel : ui.selectedBlock ≠ -1 := fun e => hc (Or.inl e)
    have hlt := decimalValue_lt ui.userInputSize h.digits
    have hpow : 10 ^ ui.userInputSize.length ≤ 10 ^ 3 :=
      Nat.pow_le_pow_right (by norm_num) h.short
    rw [stoi_digits ui.userInputSize hne h.digits (by omega)]
    simp only
    split
    · exact ⟨_, rfl⟩
    · rcases h.selection with hs | ⟨hs0, hs1⟩
      · exact absurd hs hsel
      · rw [if_neg (by omega)]
        have hidx : ui.selectedBlock.toNat < ui.blocks.length := by omega
        rw [List.getElem?_eq_getElem hidx]
        simp only
        split
        · exact ⟨_, rfl⟩
        · exact ⟨_, rfl⟩

theorem isdigit_isDigit (u : Nat) (h : isdigit u = true) : (Char.ofNat u).isDigit = true := by
  simp only [isdigit, Bool.and_eq_true, decide_eq_true_eq] at h
  obtain ⟨lo, hi⟩ := h
  interval_cases u <;> decide

theorem inv_handleTextInput (ui ui1 : MemoryUI) (u : Nat) (h : Inv ui)
    (hstep : handleTextInput ui u = some ui1) : Inv ui1 := by
  unfold handleTextInput at hstep
  split at hstep
  · split at hstep
    · obtain rfl := Option.some.inj hstep
      refine ⟨h.count, h.blocks_ok, h.selection, ?_, ?_, h.box⟩
      · intro c hc
        exact h.digits c (List.mem_of_mem_dropLast hc)
      · have := h.short
        simp only [List.length_dropLast]
        omega
    · obtain rfl := Option.some.inj hstep
      exact h
  · split at hstep
    · exact inv_applyAction ui ui1 h hstep
    · split at hstep
      · rename_i hd
        split at hstep
        · rename_i hlen
          obtain rfl := Option.some.inj hstep
          refine ⟨h.count, h.blocks_ok, h.selection, ?_, ?_, h.box⟩
          · intro c hc
            simp only [List.mem_append, List.mem_singleton] at hc
            rcases hc with hc | rfl
            · exact h.digits c hc
            · exact isdigit_isDigit u hd
          · simp only [List.length_append, List.length_singleton]
            omega
        · obtain rfl := Option.some.inj hstep
          exact h
      · obtain rfl := Option.some.inj hstep
        exact h

theorem handleTextInput_total (ui : MemoryUI) (u : Nat) (h : Inv ui) :
    ∃ ui1, handleTextInput ui u = some ui1 := by
  unfold handleTextInput
  split
  · split <;> exact ⟨_, rfl⟩
  · split
    · exact applyAction_total ui h
    · split
      · split <;> exact ⟨_, rfl⟩
      · exact ⟨_, rfl⟩

theorem inv_update (ui ui1 : MemoryUI) (e : Event) (h : Inv ui)
    (hstep : update ui e = some ui1) : Inv ui1 := by
  cases e with
  | MouseButtonPressed m =>
    obtain rfl := Option.some.inj hstep
    exact inv_handleMouseClick ui m h
  | MouseMoved m =>
    obtain rfl := Option.some.inj hstep
    exact inv_handleMouseMove ui m h
  | TextEntered u =>
    simp only [update] at hstep
    split at hstep
    · exact inv_handleTextInput ui ui1 u h hstep
    · obtain rfl := Option.some.inj hstep
      exact h
  | Other =>
    obtain rfl := Option.some.inj hstep
    exact h

theorem inv_of_reachable (ui : MemoryUI) (h : Reachable ui) : Inv ui := by
  induction h with
  | start => exact inv_initial
  | step ui ui1 e _ hstep ih => exact inv_update ui ui1 e ih hstep

/-- In a reachable state every event has a next state: `stoi` does not throw and
`blocks[selectedBlock]` is inside the vector. -/
theorem update_total (ui : MemoryUI) (h : Reachable ui) (e : Event) :
    ∃ ui1, update ui e = some ui1 := by
  have hinv := inv_of_reachable ui h
  cases e with
  | MouseButtonPressed m => exact ⟨_, rfl⟩
  | MouseMoved m => exact ⟨_, rfl⟩
  | TextEntered u =>
    simp only [update]
    split
    · exact handleTextInput_total ui u hinv
    · exact ⟨_, rfl⟩
  | Other => exact ⟨_, rfl⟩

theorem reachable_run (ui : MemoryUI) (h : Reachable ui) (es : List Event) :
    Reachable ((run ui es).getD initial) := by
  induction es generalizing ui with
  | nil => exact h
  | cons e es ih =>
    unfold run
    split
    · exact Reachable.start
    · rename_i ui1 hstep
      exact ih ui1 (Reachable.step ui ui1 e h hstep)

/-- Running events from a reachable state never gets stuck. -/
theorem run_total (ui : MemoryUI) (h : Reachable ui) (es : List Event) :
    ∃ ui1, run ui es = some ui1 := by
  induction es generalizing ui with
  | nil => exact ⟨ui, rfl⟩
  | cons e es ih =>
    obtain ⟨ui1, hstep⟩ := update_total ui h e
    unfold run
    rw [hstep]
    exact ih ui1 (Reachable.step ui ui1 e h hstep)


theorem toString_natCast (n : Nat) : toString (n : Int) = toString n := rfl

/-- The state `applyAction` returns when the size is accepted. -/
theorem applyAction_success (ui : MemoryUI) (i n : Nat) (b : Block)
    (hsel : ui.selectedBlock = (i : Int)) (hb : ui.blocks[i]? = some b)
    (hfree : b.allocated = false)
    (hne : ui.userInputSize ≠ []) (hdig : ∀ c ∈ ui.userInputSize, c.isDigit = true)
    (hval : decimalValue ui.userInputSize = n) (hlo : 10 ≤ n) (hhi : n ≤ 100) :
    applyAction ui = some (updateSummaryText
      { ui with
        blocks := ui.blocks.set i (b.allocate n)
        statusText := "Allocated block " ++ toString (i + 1) ++ " (" ++ toString n ++ " KB)"
        selectedAction := 0
        showInputBox := false
        selectedBlock := -1
        userInputSize := [] }) := by
  have hstoi : stoi ui.userInputSize = some (n : Int) := by
    rw [stoi_digits ui.userInputSize hne hdig (by omega), hval]
  have h1 : ¬ (ui.selectedBlock = -1 ∨ ui.userInputSize = []) := by
    rw [hsel]; intro h; rcases h with h | h
    · omega
    · exact hne h
  have h2 : ¬ ((n : Int) < 10 ∨ (n : Int) > 100) := by omega
  have h3 : ¬ (ui.selectedBlock < 0) := by rw [hsel]; omega
  have h4 : ui.selectedBlock.toNat = i := by rw [hsel]; simp
  have h5 : ui.selectedBlock + 1 = ((i + 1 : Nat) : Int) := by rw [hsel]; simp
  unfold applyAction
  rw [if_neg h1, hstoi]
  simp only
  rw [if_neg h2, if_neg h3, h4, hb]
  simp only [hfree, h5, toString_natCast]
  rfl

/-! ## The claims -/

/-- C1: in every state reachable from the initial state by input events, no
block has `allocated` and `freed` both true. -/
theorem allocated_freed_exclusive (ui : MemoryUI) (h : Reachable ui) :
    ∀ b ∈ ui.blocks, ¬ (b.allocated = true ∧ b.freed = true) := by
  intro b hb
  rcases (inv_of_reachable ui h).blocks_ok b hb with ⟨_, hf, _⟩ | ⟨ha, _⟩ | ⟨ha, _⟩
  · simp [hf]
  · simp [ha]
  · simp [ha]

/-- The state after one allocation and one free is reachable, and C1 holds in it. -/
theorem allocated_freed_exclusive_witness :
    Reachable freedOnce ∧ ∀ b ∈ freedOnce.blocks, ¬ (b.allocated = true ∧ b.freed = true) :=
  ⟨reachable_run initial Reachable.start _,
   allocated_freed_exclusive freedOnce (reachable_run initial Reachable.start _)⟩

/-- C2: with block `i` selected and not allocated and a non-empty digit buffer
of value `n` in [10,100], `applyAction` returns a state in which block `i` is
allocated, not freed, of size `n`, every other block is as before, no action is
armed, no block is selected, the buffer is empty, the input box is hidden and
the status is "Allocated block i+1 (n KB)". -/
theorem applyAction_allocates (ui : MemoryUI) (i n : Nat) (b : Block)
    (hsel : ui.selectedBlock = (i : Int)) (hb : ui.blocks[i]? = some b)
    (hfree : b.allocated = false)
    (hne : ui.userInputSize ≠ []) (hdig : ∀ c ∈ ui.userInputSize, c.isDigit = true)
    (hval : decimalValue ui.userInputSize = n) (hlo : 10 ≤ n) (hhi : n ≤ 100) :
    ∃ ui1, applyAction ui = some ui1 ∧
      ui1.blocks[i]? = some { id := b.id, allocated := true, freed := false, memorySize := n } ∧
      (∀ j, j ≠ i → ui1.blocks[j]? = ui.blocks[j]?) ∧
      ui1.blocks.length = ui.blocks.length ∧
      ui1.selectedAction = 0 ∧ ui1.selectedBlock = -1 ∧ ui1.userInputSize = [] ∧
      ui1.showInputBox = false ∧
      ui1.statusText = "Allocated block " ++ toString (i + 1) ++ " (" ++ toString n ++ " KB)" := by
  have hi : i < ui.blocks.length := by
    by_contra hc
    rw [List.getElem?_eq_none (by omega)] at hb
    simp at hb
  have happly := applyAction_success ui i n b hsel hb hfree hne hdig hval hlo hhi
  refine ⟨_, happly, ?_, ?_, ?_, rfl, rfl, rfl, rfl, rfl⟩
  · simp [hi, Block.allocate]
  · intro j hj
    simp [List.getElem?_set, Ne.symm hj]
  · simp

/-- The confirm key in the state `sizeEntry55` allocates block 1 with 55 KB. -/
theorem applyAction_allocates_witness :
    ∃ ui1, applyAction sizeEntry55 = some ui1 ∧
      ui1.blocks[0]? = some { id := 1, allocated := true, freed := false, memorySize := 55 } ∧
      (∀ j, j ≠ 0 → ui1.blocks[j]? = sizeEntry55.blocks[j]?) ∧
      ui1.blocks.length = sizeEntry55.blocks.length ∧
      ui1.selectedAction = 0 ∧ ui1.selectedBlock = -1 ∧ ui1.userInputSize = [] ∧
      ui1.showInputBox = false ∧
      ui1.statusText = "Allocated block " ++ toString (0 + 1) ++ " (" ++ toString 55 ++ " KB)" :=
  applyAction_allocates sizeEntry55 0 55
    { id := 1, allocated := false, freed := false, memorySize := 0 }
    (by decide) (by decide) rfl (by decide) (by decide) (by decide) (by decide) (by decide)


/-- C3: with Free armed and block `i` allocated, a click on block `i` (the
pointer is on no button, inside block `i` and inside no earlier block) makes
block `i` not allocated and freed, leaves every other block as it was, sets the
status to "Freed block i+1", and leaves no action armed and no block selected. -/
theorem click_frees_block (ui : MemoryUI) (m : MousePos) (i : Nat) (b : Block)
    (harmed : ui.selectedAction = 2) (hb : ui.blocks[i]? = some b)
    (halloc : b.allocated = true)
    (hA : m.onAllocate = false) (hF : m.onFree = false) (hC : m.onClear = false)
    (hhit : m.onBlock i = true) (hfirst : ∀ k, k < i → m.onBlock k = false) :
    update ui (Event.MouseButtonPressed m) = some (handleMouseClick ui m) ∧
    (handleMouseClick ui m).blocks[i]?
      = some { id := b.id, allocated := false, freed := true, memorySize := b.memorySize } ∧
    (∀ j, j ≠ i → (handleMouseClick ui m).blocks[j]? = ui.blocks[j]?) ∧
    (handleMouseClick ui m).blocks.length = ui.blocks.length ∧
    (handleMouseClick ui m).statusText = "Freed block " ++ toString (i + 1) ∧
    (handleMouseClick ui m).selectedAction = 0 ∧
    (handleMouseClick ui m).selectedBlock = -1 := by
  have hi : i < ui.blocks.length := by
    by_contra hc
    rw [List.getElem?_eq_none (by omega)] at hb
    simp at hb
  have hclick : handleMouseClick ui m = clickBlock ui i b := by
    unfold handleMouseClick
    rw [if_neg (by simp [hA]), if_neg (by simp [hF]), if_neg (by simp [hC])]
    exact clickLoop_hit ui m i b hhit hfirst ui.blocks 0 (Nat.zero_le _) (by simpa using hb)
  have hres : clickBlock ui i b = updateSummaryText
      { ui with
        blocks := ui.blocks.set i b.release
        statusText := "Freed block " ++ toString (i + 1)
        selectedAction := 0
        selectedBlock := -1 } := by
    unfold clickBlock
    simp [harmed, halloc]
  refine ⟨rfl, ?_⟩
  rw [hclick, hres]
  refine ⟨?_, ?_, ?_, rfl, rfl, rfl⟩
  · simp [hi, Block.release]
  · intro j hj
    simp [List.getElem?_set, Ne.symm hj]
  · simp

/-- With block 1 allocated and Free armed, a click on block 1 frees it. -/
theorem click_frees_block_witness :
    freeArmed.selectedAction = 2 ∧
    (handleMouseClick freeArmed (MousePos.block 0)).blocks[0]?
      = some { id := 1, allocated := false, freed := true, memorySize := 55 } ∧
    (handleMouseClick freeArmed (MousePos.block 0)).statusText = "Freed block " ++ toString (0 + 1) ∧
    (handleMouseClick freeArmed (MousePos.block 0)).selectedAction = 0 ∧
    (handleMouseClick freeArmed (MousePos.block 0)).selectedBlock = -1 :=
  have h := click_frees_block freeArmed (MousePos.block 0) 0
    { id := 1, allocated := true, freed := false, memorySize := 55 }
    (by decide) (by decide) rfl rfl rfl rfl (by decide) (by intro k hk; omega)
  ⟨by decide, h.2.1, h.2.2.2.2.1, h.2.2.2.2.2.1, h.2.2.2.2.2.2⟩

/-- C4: with a block selected and a non-empty buffer of at most three digits
whose value is outside [10,100], the confirm key (`applyAction`, reached from
`handleTextInput` with the carriage return) sets the status to
"Size must be 10-100 KB" and changes nothing else. -/
theorem applyAction_rejects_size (ui : MemoryUI) (n : Nat)
    (hsel : ui.selectedBlock ≠ -1)
    (hne : ui.userInputSize ≠ []) (hdig : ∀ c ∈ ui.userInputSize, c.isDigit = true)
    (hshort : ui.userInputSize.length ≤ 3)
    (hval : decimalValue ui.userInputSize = n) (hout : n < 10 ∨ 100 < n) :
    ∃ ui1, applyAction ui = some ui1 ∧ handleTextInput ui 13 = some ui1 ∧
      ui1.statusText = "Size must be 10-100 KB" ∧
      ui1.blocks = ui.blocks ∧ ui1.selectedAction = ui.selectedAction ∧
      ui1.selectedBlock = ui.selectedBlock ∧ ui1.userInputSize = ui.userInputSize ∧
      ui1.showInputBox = ui.showInputBox ∧ ui1.summaryText = ui.summaryText ∧
      ui1.buttonHover = ui.buttonHover := by
  have hlt := decimalValue_lt ui.userInputSize hdig
  have hpow : 10 ^ ui.userInputSize.length ≤ 10 ^ 3 :=
    Nat.pow_le_pow_right (by norm_num) hshort
  have hstoi : stoi ui.userInputSize = some (n : Int) := by
    rw [stoi_digits ui.userInputSize hne hdig (by omega), hval]
  have h1 : ¬ (ui.selectedBlock = -1 ∨ ui.userInputSize = []) := by
    intro h; rcases h with h | h
    · exact hsel h
    · exact hne h
  have h2 : (n : Int) < 10 ∨ (n : Int) > 100 := by omega
  have happly : applyAction ui = some { ui with statusText := "Size must be 10-100 KB" } := by
    unfold applyAction
    rw [if_neg h1, hstoi]
    simp only
    rw [if_pos h2]
  refine ⟨_, happly, ?_, rfl, rfl, rfl, rfl, rfl, rfl, rfl, rfl⟩
  unfold handleTextInput
  rw [if_neg (by decide), if_pos rfl]
  exact happly

/-- The confirm key with the buffer "5" only sets the status. -/
theorem applyAction_rejects_size_witness :
    ∃ ui1, applyAction sizeEntry5 = some ui1 ∧ handleTextInput sizeEntry5 13 = some ui1 ∧
      ui1.statusText = "Size must be 10-100 KB" ∧
      ui1.blocks = sizeEntry5.blocks ∧ ui1.selectedAction = sizeEntry5.selectedAction ∧
      ui1.selectedBlock = sizeEntry5.selectedBlock ∧
      ui1.userInputSize = sizeEntry5.userInputSize ∧
      ui1.showInputBox = sizeEntry5.showInputBox ∧ ui1.summaryText = sizeEntry5.summaryText ∧
      ui1.buttonHover = sizeEntry5.buttonHover :=
  applyAction_rejects_size sizeEntry5 5 (by decide) (by decide) (by decide) (by decide)
    (by decide) (by decide)


/-- C5, as stated, fails: after Allocate, a click on block 1 and the digits 5
and 5 the program is in AwaitingSizeEntry(0); a click on the Free button leaves
the buffer "55" and the selection 0 in place. -/
theorem free_button_discards_counterexample :
    Reachable sizeEntry55 ∧
    sizeEntry55.selectedAction = 1 ∧ sizeEntry55.selectedBlock = 0 ∧
    sizeEntry55.showInputBox = true ∧
    (handleMouseClick sizeEntry55 MousePos.freeButton).userInputSize = ['5', '5'] ∧
    (handleMouseClick sizeEntry55 MousePos.freeButton).selectedBlock = 0 ∧
    ¬ ((handleMouseClick sizeEntry55 MousePos.freeButton).userInputSize = [] ∧
       (handleMouseClick sizeEntry55 MousePos.freeButton).selectedBlock = -1) :=
  ⟨reachable_run initial Reachable.start _, by decide, by decide, by decide, by decide,
   by decide, by decide⟩

/-- C5, amended: with block `i` selected, a click on the Free button arms Free,
hides the input box and sets the status; the buffer and the selection stay as
they were, no block changes (block `i` in particular), and every later text
event is ignored as long as the box stays hidden. -/
theorem free_button_keeps_entry (ui : MemoryUI) (m : MousePos) (i : Nat) (b : Block)
    (hsel : ui.selectedBlock = (i : Int)) (hb : ui.blocks[i]? = some b)
    (hA : m.onAllocate = false) (hF : m.onFree = true) :
    (handleMouseClick ui m).selectedAction = 2 ∧
    (handleMouseClick ui m).showInputBox = false ∧
    (handleMouseClick ui m).statusText = "Select a block to free" ∧
    (handleMouseClick ui m).userInputSize = ui.userInputSize ∧
    (handleMouseClick ui m).selectedBlock = (i : Int) ∧
    (handleMouseClick ui m).blocks = ui.blocks ∧
    (handleMouseClick ui m).blocks[i]? = some b ∧
    ∀ u, update (handleMouseClick ui m) (Event.TextEntered u) = some (handleMouseClick ui m) := by
  have hclick : handleMouseClick ui m =
      { ui with
        selectedAction := 2
        showInputBox := false
        statusText := "Select a block to free" } := by
    unfold handleMouseClick
    rw [if_neg (by simp [hA]), if_pos hF]
  rw [hclick]
  exact ⟨rfl, rfl, rfl, rfl, hsel, rfl, hb, fun u => by simp [update]⟩

/-- The Free button pressed in the state `sizeEntry55`. -/
theorem free_button_keeps_entry_witness :
    (handleMouseClick sizeEntry55 MousePos.freeButton).selectedAction = 2 ∧
    (handleMouseClick sizeEntry55 MousePos.freeButton).showInputBox = false ∧
    (handleMouseClick sizeEntry55 MousePos.freeButton).statusText = "Select a block to free" ∧
    (handleMouseClick sizeEntry55 MousePos.freeButton).userInputSize
      = sizeEntry55.userInputSize ∧
    (handleMouseClick sizeEntry55 MousePos.freeButton).selectedBlock = ((0 : Nat) : Int) ∧
    (handleMouseClick sizeEntry55 MousePos.freeButton).blocks = sizeEntry55.blocks ∧
    (handleMouseClick sizeEntry55 MousePos.freeButton).blocks[0]?
      = some { id := 1, allocated := false, freed := false, memorySize := 0 } ∧
    ∀ u, update (handleMouseClick sizeEntry55 MousePos.freeButton) (Event.TextEntered u)
      = some (handleMouseClick sizeEntry55 MousePos.freeButton) :=
  free_button_keeps_entry sizeEntry55 MousePos.freeButton 0
    { id := 1, allocated := false, freed := false, memorySize := 0 }
    (by decide) (by decide) rfl rfl

/-- C6, as stated, fails: in the initial state (Idle, nothing selected) a click
on block 1 changes the selected block index from -1 to 0. -/
theorem idle_click_counterexample :
    initial.selectedAction = 0 ∧ initial.selectedBlock = -1 ∧
    (handleMouseClick initial (MousePos.block 0)).selectedBlock = 0 ∧
    (handleMouseClick initial (MousePos.block 0)).selectedBlock ≠ initial.selectedBlock :=
  ⟨by decide, by decide, by decide, by decide⟩

/-- C6, amended: with no action armed, a click on block `i` (the pointer is on
no button, inside block `i` and inside no earlier block) makes `i` the selected
block and changes nothing else. -/
theorem idle_click_selects_only (ui : MemoryUI) (m : MousePos) (i : Nat) (b : Block)
    (hidle : ui.selectedAction = 0) (hb : ui.blocks[i]? = some b)
    (hA : m.onAllocate = false) (hF : m.onFree = false) (hC : m.onClear = false)
    (hhit : m.onBlock i = true) (hfirst : ∀ k, k < i → m.onBlock k = false) :
    handleMouseClick ui m = { ui with selectedBlock := (i : Int) } := by
  have hclick : handleMouseClick ui m = clickBlock ui i b := by
    unfold handleMouseClick
    rw [if_neg (by simp [hA]), if_neg (by simp [hF]), if_neg (by simp [hC])]
    exact clickLoop_hit ui m i b hhit hfirst ui.blocks 0 (Nat.zero_le _) (by simpa using hb)
  rw [hclick]
  unfold clickBlock
  simp [hidle]

/-- A click on block 8 in the initial state selects index 7. -/
theorem idle_click_selects_only_witness :
    initial.selectedAction = 0 ∧
    handleMouseClick initial (MousePos.block 7)
      = { initial with selectedBlock := ((7 : Nat) : Int) } :=
  ⟨by decide,
   idle_click_selects_only initial (MousePos.block 7) 7
    { id := 8, allocated := false, freed := false, memorySize := 0 }
    (by decide) (by decide) rfl rfl rfl (by decide)
    (by intro k hk; simp only [MousePos.block, decide_eq_false_iff_not]; omega)⟩

/-- C7, as stated, fails: after block 1 is allocated with 55 KB and then freed,
it is not allocated and its size is still 55. -/
theorem unallocated_size_counterexample :
    Reachable freedOnce ∧
    freedOnce.blocks[0]? = some { id := 1, allocated := false, freed := true, memorySize := 55 } ∧
    ¬ (∀ b ∈ freedOnce.blocks, b.allocated = false → b.memorySize = 0) := by
  have h : freedOnce.blocks[0]?
      = some { id := 1, allocated := false, freed := true, memorySize := 55 } := by decide
  refine ⟨reachable_run initial Reachable.start _, h, ?_⟩
  intro hall
  have := hall _ (List.getElem?_mem h) rfl
  exact absurd this (by decide)

/-- C7, amended: in every reachable state a block that is not allocated either
is not freed and has size 0, or is freed and has a size in [10,100]. -/
theorem unallocated_size (ui : MemoryUI) (h : Reachable ui) :
    ∀ b ∈ ui.blocks, b.allocated = false →
      (b.freed = false ∧ b.memorySize = 0) ∨
      (b.freed = true ∧ 10 ≤ b.memorySize ∧ b.memorySize ≤ 100) := by
  intro b hb hna
  rcases (inv_of_reachable ui h).blocks_ok b hb with ⟨ha, _⟩ | ⟨_, hf, h1, h2⟩ | ⟨_, hf, h0⟩
  · rw [ha] at hna; exact absurd hna (by decide)
  · exact Or.inr ⟨hf, h1, h2⟩
  · exact Or.inl ⟨hf, h0⟩

/-- The state after one allocation and one free is reachable, and amended C7 holds in it. -/
theorem unallocated_size_witness :
    Reachable freedOnce ∧
    ∀ b ∈ freedOnce.blocks, b.allocated = false →
      (b.freed = false ∧ b.memorySize = 0) ∨
      (b.freed = true ∧ 10 ≤ b.memorySize ∧ b.memorySize ≤ 100) :=
  ⟨reachable_run initial Reachable.start _,
   unallocated_size freedOnce (reachable_run initial Reachable.start _)⟩


/-- C8: for every registry, the summary pass leaves ten buckets whose counts sum
to `allocatedCount`, and `allocatedCount` is the number of allocated blocks. -/
theorem histogram_sum_eq_allocatedCount (blocks : List Block) :
    (summaryPass blocks).sizeHistogram.length = 10 ∧
      (summaryPass blocks).sizeHistogram.sum = (summaryPass blocks).allocatedCount ∧
      (summaryPass blocks).allocatedCount
        = ((blocks.filter (fun b => b.allocated)).length : Int) := by
  have h := foldl_histogram blocks Summary.start ⟨by simp [Summary.start], by simp [Summary.start]⟩
  refine ⟨h.1, h.2, ?_⟩
  have := foldl_allocatedCount blocks Summary.start
  simpa [summaryPass, Summary.start] using this

/-- C9: in every reachable state with at least one allocated block, `maxSize`
and `minSize` of the summary pass are the largest and the smallest size of an
allocated block: each is the size of some allocated block and bounds the sizes
of all allocated blocks.  The sizes of allocated blocks lie in [10,100]. -/
theorem summary_extremes (ui : MemoryUI) (h : Reachable ui)
    (hex : ∃ b ∈ ui.blocks, b.allocated = true) :
    (∀ b ∈ ui.blocks, b.allocated = true → 10 ≤ b.memorySize ∧ b.memorySize ≤ 100) ∧
    (∃ b ∈ ui.blocks, b.allocated = true ∧ b.memorySize = (summaryPass ui.blocks).maxSize) ∧
    (∀ b ∈ ui.blocks, b.allocated = true → b.memorySize ≤ (summaryPass ui.blocks).maxSize) ∧
    (∃ b ∈ ui.blocks, b.allocated = true ∧ b.memorySize = (summaryPass ui.blocks).minSize) ∧
    (∀ b ∈ ui.blocks, b.allocated = true → (summaryPass ui.blocks).minSize ≤ b.memorySize) := by
  have hrange : ∀ b ∈ ui.blocks, b.allocated = true → 10 ≤ b.memorySize ∧ b.memorySize ≤ 100 := by
    intro b hb ha
    rcases (inv_of_reachable ui h).blocks_ok b hb with ⟨_, _, h1, h2⟩ | ⟨hn, _⟩ | ⟨hn, _⟩
    · exact ⟨h1, h2⟩
    · rw [hn] at ha; exact absurd ha (by decide)
    · rw [hn] at ha; exact absurd ha (by decide)
  obtain ⟨b0, hb0, ha0⟩ := hex
  obtain ⟨hmax1, -, hmax3⟩ := foldl_maxSize ui.blocks Summary.start
  obtain ⟨hmin1, hmin2, hmin3⟩ := foldl_minSize ui.blocks Summary.start
  have hr0 := hrange b0 hb0 ha0
  refine ⟨hrange, ?_, hmax3, ?_, hmin3⟩
  · rcases hmax1 with hz | hw
    · have := hmax3 b0 hb0 ha0
      rw [hz] at this
      simp only [Summary.start] at this
      omega
    · exact hw
  · rcases hmin1 with hz | hw
    · have h1 := hmin3 b0 hb0 ha0
      have h2 : (List.foldl summaryStep Summary.start ui.blocks).minSize = 100 := by
        rw [hz]; rfl
      refine ⟨b0, hb0, ha0, ?_⟩
      show b0.memorySize = (List.foldl summaryStep Summary.start ui.blocks).minSize
      omega
    · exact hw

/-- The state after one allocation is reachable and has an allocated block. -/
theorem summary_extremes_witness :
    Reachable allocatedOnce ∧
    (∃ b ∈ allocatedOnce.blocks, b.allocated = true) ∧
    (∃ b ∈ allocatedOnce.blocks,
      b.allocated = true ∧ b.memorySize = (summaryPass allocatedOnce.blocks).maxSize) ∧
    (∃ b ∈ allocatedOnce.blocks,
      b.allocated = true ∧ b.memorySize = (summaryPass allocatedOnce.blocks).minSize) :=
  have hr : Reachable allocatedOnce := reachable_run initial Reachable.start _
  have hex : ∃ b ∈ allocatedOnce.blocks, b.allocated = true :=
    ⟨{ id := 1, allocated := true, freed := false, memorySize := 55 }, by decide, rfl⟩
  have h := summary_extremes allocatedOnce hr hex
  ⟨hr, hex, h.2.1, h.2.2.2.1⟩

/-- C10: in every reachable state the input box is visible only while Allocate
is armed; a text event is ignored while the box is hidden; and a text event
handled by `update` makes the buffer longer only if, before the event, the box
was visible and Allocate was armed. -/
theorem buffer_grows_only_in_size_entry (ui : MemoryUI) (h : Reachable ui) (u : Nat) :
    (ui.showInputBox = true → ui.selectedAction = 1) ∧
    (ui.showInputBox = false → update ui (Event.TextEntered u) = some ui) ∧
    ∃ ui1, update ui (Event.TextEntered u) = some ui1 ∧
      (ui.userInputSize.length < ui1.userInputSize.length →
        ui.showInputBox = true ∧ ui.selectedAction = 1) := by
  have hinv := inv_of_reachable ui h
  have hhidden : ui.showInputBox = false → update ui (Event.TextEntered u) = some ui := by
    intro hs
    simp [update, hs]
  refine ⟨hinv.box, hhidden, ?_⟩
  obtain ⟨ui1, hstep⟩ := update_total ui h (Event.TextEntered u)
  refine ⟨ui1, hstep, ?_⟩
  intro hlen
  cases hs : ui.showInputBox with
  | true => exact ⟨rfl, hinv.box hs⟩
  | false =>
    rw [hhidden hs] at hstep
    obtain rfl := Option.some.inj hstep
    omega

/-- The digit 5 typed in the reachable state `sizeEntry5`. -/
theorem buffer_grows_only_in_size_entry_witness :
    Reachable sizeEntry5 ∧
    (sizeEntry5.showInputBox = true → sizeEntry5.selectedAction = 1) ∧
    (sizeEntry5.showInputBox = false → update sizeEntry5 (Event.TextEntered 53) = some sizeEntry5) ∧
    ∃ ui1, update sizeEntry5 (Event.TextEntered 53) = some ui1 ∧
      (sizeEntry5.userInputSize.length < ui1.userInputSize.length →
        sizeEntry5.showInputBox = true ∧ sizeEntry5.selectedAction = 1) :=
  ⟨reachable_run initial Reachable.start _,
   buffer_grows_only_in_size_entry sizeEntry5 (reachable_run initial Reachable.start _) 53⟩

end MemoryManager
